import Mathlib

/-!
Shallow embedding of `sharktank/types/gguf_interop/base.py`: the GGUF
metadata extractor (`_load_array`, `_load_properties`), the tensor
materializer (`_externalize_tensor`), the tensor type dispatcher
(`_wrap_tensor`) and the dataset assembler (`load_file`,
`load_properties`).  Python dicts are modelled as association lists with
Python's update semantics (overwrite in place, append fresh keys), numpy
memmaps as flat integer payloads with a dtype and a shape, and torch
tensors as records that carry the `ExternalTensorTrait` annotation as an
`Option` field (the trait is attached to one object identity; a
`Tensor.view` produces a new object without the trait).
-/

namespace GGUF

/-- The GGUF value-type tags used by the reader (`gguf.GGUFValueType`). -/
inductive GGUFValueType where
  | UINT8 | INT8 | UINT16 | INT16 | UINT32 | INT32
  | FLOAT32 | BOOL | STRING | ARRAY | UINT64 | INT64 | FLOAT64
  deriving DecidableEq, Repr

open GGUFValueType

/-- Membership in `GGUFReader.gguf_scalar_to_np`: the scalar numeric types
the reader knows a numpy representation for (every tag except STRING and
ARRAY). -/
def gguf_scalar_to_np (t : GGUFValueType) : Bool :=
  match t with
  | STRING => false
  | ARRAY => false
  | _ => true

/-- Rendering of a type tag for error messages (stands in for Python's
`repr`/`str` of a `GGUFValueType` member). -/
def vtName (t : GGUFValueType) : String :=
  match t with
  | UINT8 => "UINT8" | INT8 => "INT8" | UINT16 => "UINT16"
  | INT16 => "INT16" | UINT32 => "UINT32" | INT32 => "INT32"
  | FLOAT32 => "FLOAT32" | BOOL => "BOOL" | STRING => "STRING"
  | ARRAY => "ARRAY" | UINT64 => "UINT64" | INT64 => "INT64"
  | FLOAT64 => "FLOAT64"

/-- Rendering of a type-tag list for error messages (stands in for the
f-string interpolation of `field.types`). -/
def typesName (ts : List GGUFValueType) : String :=
  "[" ++ String.intercalate ", " (ts.map vtName) ++ "]"

/-- One positional data segment of a reader field (`field.parts[i]`).  A
segment is either the raw UTF-8 bytes of a string (kept decoded) or a
numpy scalar array (kept as its list of values; scalars are modelled as
integers since no claim depends on float arithmetic).  Accessing a
segment at the wrong kind (bytes where a scalar array is expected or
vice versa) is not exercised by any well-formed container and is
modelled as a distinct `typeMismatch` failure. -/
inductive Part where
  | strBytes (s : String)
  | scalars (xs : List Int)
  deriving DecidableEq, Repr

/-- A parsed metadata field record (`gguf.ReaderField`): name, type-tag
list, positional data segments, and the indices (into `parts`) of the
payload elements. -/
structure ReaderField where
  name : String
  types : List GGUFValueType
  parts : List Part
  data : List Nat
  deriving DecidableEq, Repr

/-- The failure modes of the loader: `valueError` carries the message of a
Python `ValueError`; `indexError` models an out-of-range sequence access;
`assertionError` models a failed `assert`; `typeMismatch` models applying
a decode step to a data segment of the wrong kind (never reached on
well-formed containers). -/
inductive LoadError where
  | valueError (msg : String)
  | indexError
  | assertionError
  | typeMismatch
  deriving DecidableEq, Repr

/-- `str(bytes(part), encoding="utf8")` on a string segment. -/
def partAsString (p : Part) : Except LoadError String :=
  match p with
  | .strBytes s => .ok s
  | .scalars _ => .error .typeMismatch

/-- `part[0]` on a scalar numpy segment. -/
def partFirstScalar (p : Part) : Except LoadError Int :=
  match p with
  | .strBytes _ => .error .typeMismatch
  | .scalars [] => .error .indexError
  | .scalars (x :: _) => .ok x

/-- `_sanitize_scalar`: converts a numpy generic to the equivalent Python
scalar; the numeric value is preserved exactly, so on the integer model
it is the identity. -/
def _sanitize_scalar (x : Int) : Int := x

/-- A property value: a string, a scalar, or a one-level list of scalar
or string values. -/
inductive PValue where
  | str (s : String)
  | num (x : Int)
  | arr (xs : List PValue)

/-- Python list indexing `xs[i]` (an out-of-range index raises). -/
def pyGet (xs : List Part) (i : Nat) : Except LoadError Part :=
  match xs.get? i with
  | some p => .ok p
  | none => .error .indexError

/-- `_load_array`: decodes an array field.  Requires exactly two type
tags; the second is the element type, which must be STRING or a known
scalar type; elements are read in on-disk order through the indices in
`field.data`. -/
def _load_array (field : ReaderField) : Except LoadError (List PValue) :=
  if field.types.length ≠ 2 then
    .error (.valueError ("Unsupported array type " ++ typesName field.types))
  else
    match field.types.get? 1 with
    | none => .error .indexError
    | some element_type =>
      if element_type = STRING then
        (field.data.mapM fun parts_index => do
          let p ← pyGet field.parts parts_index
          let s ← partAsString p
          return PValue.str s)
      else if gguf_scalar_to_np element_type then
        (field.data.mapM fun parts_index => do
          let p ← pyGet field.parts parts_index
          let x ← partFirstScalar p
          return PValue.num (_sanitize_scalar x))
      else
        .error (.valueError ("Unsupported array element type f" ++ vtName element_type))

/-- An association list modelling a Python `dict`: overwrite keeps the
key's position, a fresh key is appended. -/
abbrev Dict (α : Type) : Type := List (String × α)

/-- The keys of a dict, in order. -/
def dkeys {α : Type} (d : Dict α) : List String := d.map Prod.fst

/-- Python `d[k] = v`. -/
def dinsert {α : Type} (d : Dict α) (k : String) (v : α) : Dict α :=
  if k ∈ dkeys d then
    d.map fun p => if p.1 = k then (k, v) else p
  else
    d ++ [(k, v)]

/-- Python `d[k]` / `d.get(k)`. -/
def dget {α : Type} (d : Dict α) (k : String) : Option α :=
  (d.find? fun p => p.1 == k).map Prod.snd

/-- The body of `_load_properties`'s loop for one field: returns
`some value` when the field contributes a property entry, `none` when the
field is skipped.  Mirrors the source exactly: a single-tag field is
decoded when its tag is STRING or a known scalar type and is otherwise
skipped (the inner `if/elif` has no `else`); a multi-tag field whose
first tag is ARRAY is delegated to `_load_array`; any other multi-tag
field raises `ValueError("Invalid field type.")`. -/
def processField (field : ReaderField) : Except LoadError (Option PValue) :=
  if field.types.length = 1 then
    match field.types.get? 0 with
    | none => .error .indexError
    | some curr_type =>
      if curr_type = STRING then do
        match field.parts.getLast? with
        | none => .error .indexError
        | some p => do
          let s ← partAsString p
          return some (PValue.str s)
      else if gguf_scalar_to_np curr_type then
        match field.parts.getLast? with
        | none => .error .indexError
        | some p => do
          let x ← partFirstScalar p
          return some (PValue.num (_sanitize_scalar x))
      else
        return none
  else
    match field.types.get? 0 with
    | none => .error .indexError
    | some t0 =>
      if t0 = ARRAY then do
        let xs ← _load_array field
        return some (PValue.arr xs)
      else
        .error (.valueError "Invalid field type.")

/-- The loop of `_load_properties` over `reader.fields.values()`. -/
def loadPropertiesFields (fields : List ReaderField) (acc : Dict PValue) :
    Except LoadError (Dict PValue) :=
  match fields with
  | [] => .ok acc
  | field :: rest => do
    let r ← processField field
    match r with
    | some v => loadPropertiesFields rest (dinsert acc field.name v)
    | none => loadPropertiesFields rest acc

/-- `_load_properties`: seeds the mapping with the schema marker and
walks every field. -/
def _load_properties (fields : List ReaderField) : Except LoadError (Dict PValue) :=
  loadPropertiesFields fields [("schema", PValue.str "GGUF")]

/-- The numpy element dtypes the gguf reader hands the loader (plus
`float16` for F16 data); quantized and BF16 payloads arrive as flat
`uint8` byte views. -/
inductive NpDtype where
  | uint8 | int16 | float16 | float32 | float64
  deriving DecidableEq, Repr

/-- Torch element dtypes reachable in the loader. -/
inductive TorchDtype where
  | uint8 | int16 | float16 | float32 | float64 | bfloat16
  deriving DecidableEq, Repr

/-- `torch.as_tensor` keeps the numpy element type. -/
def npToTorch (d : NpDtype) : TorchDtype :=
  match d with
  | .uint8 => .uint8
  | .int16 => .int16
  | .float16 => .float16
  | .float32 => .float32
  | .float64 => .float64

/-- A numpy memmap view: element dtype, shape, and the flat payload in
row-major order.  Element values are modelled as integers (raw bit
patterns for float dtypes); no claim performs float arithmetic. -/
structure NpArray where
  dtype : NpDtype
  shape : List Nat
  data : List Int
  deriving DecidableEq, Repr

/-- `ndarray.reshape(shape)`: succeeds exactly when the element count
matches the product of the requested shape, and never copies. -/
def NpArray.reshape (a : NpArray) (s : List Nat) : Except LoadError NpArray :=
  if a.data.length = s.prod then .ok { a with shape := s }
  else .error (.valueError "cannot reshape array")

/-- Two consecutive little-endian bytes as a signed 16-bit value. -/
def int16OfBytes (lo hi : Int) : Int :=
  let u := lo + 256 * hi
  if u ≥ 32768 then u - 65536 else u

/-- Pairs a flat byte list into signed 16-bit values; `none` when the
length is odd. -/
def pairBytes : List Int → Option (List Int)
  | [] => some []
  | [_] => none
  | lo :: hi :: rest => (pairBytes rest).map fun xs => int16OfBytes lo hi :: xs

/-- `data.view(np.int16)` on the reader's flat `uint8` byte views (the
reader hands the loader one-dimensional raw views, so the result is the
flat list of byte pairs).  A non-`uint8` receiver is unreachable in the
loader (guarded by the BF16 assert) and is modelled as `typeMismatch`;
an odd byte count is numpy's `ValueError`. -/
def NpArray.viewInt16 (a : NpArray) : Except LoadError NpArray :=
  if a.dtype ≠ .uint8 then .error .typeMismatch
  else
    match pairBytes a.data with
    | none => .error (.valueError "When changing to a larger dtype, its size must be a divisor of the total size in bytes of the last axis of the array.")
    | some xs => .ok ⟨.int16, [xs.length], xs⟩

/-- A torch tensor object: dtype, shape, flat payload, and the
`ExternalTensorTrait` annotation when one has been attached to this
object.  The trait is attached to one object identity, so tensor-view
operations produce a value with `trait := none`. -/
structure TorchTensor where
  dtype : TorchDtype
  shape : List Nat
  data : List Int
  trait : Option (String × String)
  deriving DecidableEq, Repr

/-- `torch.as_tensor` on a numpy view: shares storage, no annotation. -/
def asTensor (a : NpArray) : TorchTensor :=
  ⟨npToTorch a.dtype, a.shape, a.data, none⟩

/-- `ExternalTensorTrait(external_name=name, external_scope="").set(t)`. -/
def setExternalTensorTrait (t : TorchTensor) (name scope : String) : TorchTensor :=
  { t with trait := some (name, scope) }

/-- `Tensor.view(dtype=torch.bfloat16)` on a 16-bit tensor: a bit-level
reinterpretation that creates a new tensor object sharing storage; the
new object carries no annotation. -/
def viewAsBF16 (t : TorchTensor) : TorchTensor :=
  ⟨.bfloat16, t.shape, t.data, none⟩

/-- `_externalize_tensor`: optionally reshapes the raw view to the
logical shape, wraps it as a torch tensor, then attaches the
external-ownership annotation (name, empty scope) to that tensor. -/
def _externalize_tensor (name : String) (data : NpArray)
    (logical_shape : Option (List Nat) := none) : Except LoadError TorchTensor := do
  let data_tensor ←
    match logical_shape with
    | some s => do
      let r ← data.reshape s
      pure (asTensor r)
    | none => pure (asTensor data)
  return setExternalTensorTrait data_tensor name ""

/-- The loader's output tensors: a `DefaultPrimitiveTensor` or one of the
quantized layout tensors (`layouts.Q4_1` …), identified by its layout
name and holding the raw undecoded tensor plus the logical shape. -/
inductive InferenceTensor where
  | primitive (name : String) (data : TorchTensor)
  | quantized (layout : String) (name : String) (raw : TorchTensor) (shape : List Nat)
  deriving DecidableEq, Repr

/-- The `_quantized_types` table: declared type name → layout
constructor (layouts are identified by their names). -/
def _quantized_types : List String := ["Q4_1", "Q4_K", "Q5_K", "Q6_K", "Q8_0"]

/-- `_quantized_types.get(type_name)`. -/
def quantizedTypesGet (type_name : String) : Option String :=
  _quantized_types.find? fun q => q = type_name

/-- `_wrap_tensor`: reverses the reported logical shape unconditionally,
then dispatches on the declared type name: F16/F32/F64 materialize
directly with the reversed shape; BF16 asserts `uint8` raw storage,
reinterprets as int16, materializes with the reversed shape and
bit-views the annotated tensor to bfloat16; quantized types materialize
the raw view with no reshape and hand the reversed shape to the layout;
anything else is a `ValueError`. -/
def _wrap_tensor (name : String) (logical_shape : List Nat) (type_name : String)
    (data : NpArray) : Except LoadError InferenceTensor :=
  let logical_shape := logical_shape.reverse
  if type_name ∈ ["F16", "F32", "F64"] then do
    let t ← _externalize_tensor name data (some logical_shape)
    return .primitive name t
  else if type_name = "BF16" then
    if data.dtype = NpDtype.uint8 then do
      let v ← data.viewInt16
      let t ← _externalize_tensor name v (some logical_shape)
      return .primitive name (viewAsBF16 t)
    else .error .assertionError
  else
    match quantizedTypesGet type_name with
    | some quantized_type => do
      let raw ← _externalize_tensor name data none
      return .quantized quantized_type name raw logical_shape
    | none => .error (.valueError ("Unsupported gguf tensor type: " ++ type_name))

/-- The logical shape of a produced tensor: a primitive tensor's torch
shape, a quantized tensor's declared layout shape. -/
def InferenceTensor.logicalShape : InferenceTensor → List Nat
  | .primitive _ t => t.shape
  | .quantized _ _ _ s => s

/-- A tensor descriptor from the reader: name, on-disk shape, declared
type name (`tensor.tensor_type.name`) and raw memory-mapped view. -/
structure ReaderTensor where
  name : String
  shape : List Nat
  tensor_type_name : String
  data : NpArray
  deriving DecidableEq, Repr

/-- The parsed container: the reader's field records (values of the
name-keyed field dict, in insertion order) and tensor descriptors. -/
structure GGUFReader where
  fields : List ReaderField
  tensors : List ReaderTensor
  deriving DecidableEq, Repr

/-- The loaded dataset: property mapping plus the root tensor namespace
(the name → tensor mapping handed to `Theta`). -/
structure Dataset where
  properties : Dict PValue
  root_theta : Dict InferenceTensor

/-- The tensor-extraction loop of `load_file`: wraps every descriptor and
stores it under its name (`tensors[tensor.name] = gguf_tensor`). -/
def wrapTensors (ts : List ReaderTensor) (acc : Dict InferenceTensor) :
    Except LoadError (Dict InferenceTensor) :=
  match ts with
  | [] => .ok acc
  | tensor :: rest => do
    let gguf_tensor ← _wrap_tensor tensor.name tensor.shape tensor.tensor_type_name tensor.data
    wrapTensors rest (dinsert acc tensor.name gguf_tensor)

/-- `load_file`: loads the properties, reconstructs every tensor, and
assembles the `Dataset`.  Any field or tensor failure aborts the whole
load. -/
def load_file (reader : GGUFReader) : Except LoadError Dataset := do
  let properties ← _load_properties reader.fields
  let tensors ← wrapTensors reader.tensors []
  return ⟨properties, tensors⟩

/-- `load_properties`: the metadata-only entry point; reads the fields
and never touches the tensor descriptors. -/
def load_properties (reader : GGUFReader) : Except LoadError (Dict PValue) :=
  _load_properties reader.fields

/-! ### Dictionary lemmas -/

theorem dkeys_append {α : Type} (d e : Dict α) : dkeys (d ++ e) = dkeys d ++ dkeys e := by
  simp [dkeys]

theorem dkeys_cons {α : Type} (p : String × α) (d : Dict α) :
    dkeys (p :: d) = p.1 :: dkeys d := rfl

theorem dkeys_map_replace {α : Type} (d : Dict α) (k : String) (v : α) :
    dkeys (d.map fun p => if p.1 = k then (k, v) else p) = dkeys d := by
  induction d with
  | nil => rfl
  | cons p rest ih =>
    by_cases hp : p.1 = k
    · simpa [dkeys_cons, hp] using ih
    · simpa [dkeys_cons, hp] using ih

theorem dkeys_dinsert {α : Type} (d : Dict α) (k : String) (v : α) :
    dkeys (dinsert d k v) = if k ∈ dkeys d then dkeys d else dkeys d ++ [k] := by
  unfold dinsert
  split
  · exact dkeys_map_replace d k v
  · simp [dkeys]

theorem dkeys_dinsert_mem {α : Type} (d : Dict α) (k : String) (v : α) (h : k ∈ dkeys d) :
    dkeys (dinsert d k v) = dkeys d := by
  rw [dkeys_dinsert, if_pos h]

theorem dkeys_dinsert_not_mem {α : Type} (d : Dict α) (k : String) (v : α) (h : k ∉ dkeys d) :
    dkeys (dinsert d k v) = dkeys d ++ [k] := by
  rw [dkeys_dinsert, if_neg h]

theorem nodup_dkeys_dinsert {α : Type} (d : Dict α) (k : String) (v : α)
    (h : (dkeys d).Nodup) : (dkeys (dinsert d k v)).Nodup := by
  rw [dkeys_dinsert]
  split
  · exact h
  · simp [List.nodup_append, h, ‹¬ k ∈ dkeys d›]

theorem dget_cons {α : Type} (p : String × α) (d : Dict α) (k : String) :
    dget (p :: d) k = if p.1 = k then some p.2 else dget d k := by
  by_cases hp : p.1 = k <;> simp [dget, List.find?_cons, hp]

theorem dget_map_replace_self {α : Type} (d : Dict α) (k : String) (v : α)
    (h : k ∈ dkeys d) :
    dget (d.map fun p => if p.1 = k then (k, v) else p) k = some v := by
  induction d with
  | nil => simp [dkeys] at h
  | cons p rest ih =>
    by_cases hp : p.1 = k
    · simp [hp, dget_cons]
    · have h' : k ∈ dkeys rest := by
        rcases (by simpa [dkeys_cons] using h : k = p.1 ∨ k ∈ dkeys rest) with e | e
        · exact absurd e.symm hp
        · exact e
      simpa [hp, dget_cons] using ih h'

theorem dget_map_replace_ne {α : Type} (d : Dict α) (k k' : String) (v : α)
    (h : k' ≠ k) :
    dget (d.map fun p => if p.1 = k then (k, v) else p) k' = dget d k' := by
  induction d with
  | nil => rfl
  | cons p rest ih =>
    by_cases hp : p.1 = k
    · simp [hp, dget_cons, Ne.symm h, hp ▸ Ne.symm h, ih]
    · by_cases hp' : p.1 = k'
      · simp [hp, hp', dget_cons, h]
      · simp [hp, hp', dget_cons, ih]

theorem dget_append_single {α : Type} (d : Dict α) (k k' : String) (v : α) :
    dget (d ++ [(k, v)]) k' =
      ((dget d k').or (if k = k' then some v else none)) := by
  induction d with
  | nil => by_cases hk : k = k' <;> simp [dget, hk]
  | cons p rest ih =>
    by_cases hp : p.1 = k'
    · simp [dget_cons, hp, List.cons_append]
    · simpa [dget_cons, hp, List.cons_append] using ih

theorem dget_dinsert_self {α : Type} (d : Dict α) (k : String) (v : α) :
    dget (dinsert d k v) k = some v := by
  unfold dinsert
  split
  · exact dget_map_replace_self d k v ‹k ∈ dkeys d›
  · rw [dget_append_single, if_pos rfl]
    have : dget d k = none := by
      rename_i hmem
      induction d with
      | nil => rfl
      | cons p rest ih =>
        have hp : ¬ p.1 = k := fun e => hmem (by simp [dkeys_cons, e])
        have h' : ¬ k ∈ dkeys rest := fun e => hmem (by simp [dkeys_cons, e])
        simpa [dget_cons, hp] using ih h'
    simp [this]

theorem dget_dinsert_ne {α : Type} (d : Dict α) (k k' : String) (v : α) (h : k' ≠ k) :
    dget (dinsert d k v) k' = dget d k' := by
  unfold dinsert
  split
  · exact dget_map_replace_ne d k k' v h
  · rw [dget_append_single, if_neg (Ne.symm h)]
    cases dget d k' <;> rfl

/-! ### Branch characterizations of the materializer and dispatcher -/

theorem ok_bind {ε α β : Type} (a : α) (f : α → Except ε β) :
    (Except.ok a >>= f) = f a := rfl

theorem error_bind {ε α β : Type} (e : ε) (f : α → Except ε β) :
    ((Except.error e : Except ε α) >>= f) = .error e := rfl

theorem externalize_none_eq (n : String) (d : NpArray) :
    _externalize_tensor n d none =
      .ok ⟨npToTorch d.dtype, d.shape, d.data, some (n, "")⟩ := rfl

theorem externalize_some_eq (n : String) (d : NpArray) (s : List Nat) :
    _externalize_tensor n d (some s) =
      if d.data.length = s.prod then
        .ok ⟨npToTorch d.dtype, s, d.data, some (n, "")⟩
      else .error (.valueError "cannot reshape array") := by
  unfold _externalize_tensor
  split
  · rename_i s' heq
    injection heq with heq'
    subst heq'
    unfold NpArray.reshape
    split <;> rfl
  · rename_i heq
    cases heq

theorem wrap_direct_eq (n : String) (s : List Nat) (ty : String) (d : NpArray)
    (hty : ty ∈ ["F16", "F32", "F64"]) :
    _wrap_tensor n s ty d =
      if d.data.length = s.reverse.prod then
        .ok (.primitive n ⟨npToTorch d.dtype, s.reverse, d.data, some (n, "")⟩)
      else .error (.valueError "cannot reshape array") := by
  unfold _wrap_tensor
  rw [if_pos hty, externalize_some_eq]
  split <;> rfl

theorem viewInt16_ok (a : NpArray) (xs : List Int) (h : a.dtype = NpDtype.uint8)
    (hp : pairBytes a.data = some xs) :
    a.viewInt16 = .ok ⟨.int16, [xs.length], xs⟩ := by
  unfold NpArray.viewInt16
  rw [if_neg (by simp [h]), hp]

theorem viewInt16_odd (a : NpArray) (h : a.dtype = NpDtype.uint8)
    (hp : pairBytes a.data = none) :
    a.viewInt16 = .error (.valueError "When changing to a larger dtype, its size must be a divisor of the total size in bytes of the last axis of the array.") := by
  unfold NpArray.viewInt16
  rw [if_neg (by simp [h]), hp]

theorem wrap_bf16_assert (n : String) (s : List Nat) (d : NpArray)
    (hd : d.dtype ≠ NpDtype.uint8) :
    _wrap_tensor n s "BF16" d = .error .assertionError := by
  unfold _wrap_tensor
  rw [if_neg (by decide), if_pos rfl, if_neg hd]

theorem wrap_bf16_ok (n : String) (s : List Nat) (d : NpArray) (t : InferenceTensor)
    (h : _wrap_tensor n s "BF16" d = .ok t) :
    d.dtype = NpDtype.uint8 ∧
      ∃ xs, pairBytes d.data = some xs ∧ xs.length = s.reverse.prod ∧
        t = .primitive n ⟨.bfloat16, s.reverse, xs, none⟩ := by
  unfold _wrap_tensor at h
  rw [if_neg (by decide), if_pos rfl] at h
  by_cases hd : d.dtype = NpDtype.uint8
  · rw [if_pos hd] at h
    cases hp : pairBytes d.data with
    | none =>
      rw [viewInt16_odd d hd hp, error_bind] at h
      cases h
    | some xs =>
      rw [viewInt16_ok d xs hd hp, ok_bind, externalize_some_eq] at h
      refine ⟨hd, xs, rfl, ?_⟩
      by_cases hl : xs.length = s.reverse.prod
      · rw [if_pos (by simpa using hl), ok_bind] at h
        cases h
        exact ⟨hl, rfl⟩
      · rw [if_neg (by simpa using hl), error_bind] at h
        cases h
  · rw [if_neg hd] at h
    cases h

theorem wrap_quantized_eq (n : String) (s : List Nat) (ty : String) (d : NpArray)
    (hty : ty ∈ _quantized_types) :
    _wrap_tensor n s ty d =
      .ok (.quantized ty n ⟨npToTorch d.dtype, d.shape, d.data, some (n, "")⟩
        s.reverse) := by
  simp only [_quantized_types, List.mem_cons, List.not_mem_nil, or_false] at hty
  rcases hty with rfl | rfl | rfl | rfl | rfl <;> rfl

theorem wrap_unknown_eq (n : String) (s : List Nat) (ty : String) (d : NpArray)
    (h1 : ty ∉ ["F16", "F32", "F64"]) (h2 : ty ≠ "BF16") (h3 : ty ∉ _quantized_types) :
    _wrap_tensor n s ty d =
      .error (.valueError ("Unsupported gguf tensor type: " ++ ty)) := by
  unfold _wrap_tensor
  rw [if_neg h1, if_neg h2]
  have : quantizedTypesGet ty = none := by
    unfold quantizedTypesGet
    rw [List.find?_eq_none]
    intro q hq
    simp only [decide_eq_true_eq]
    exact fun e => h3 (e ▸ hq)
  rw [this]

/-! ### Unfolding lemmas for the two extraction loops -/

theorem loadPropsFields_cons_some (f : ReaderField) (rest : List ReaderField)
    (acc : Dict PValue) (v : PValue) (hf : processField f = .ok (some v)) :
    loadPropertiesFields (f :: rest) acc =
      loadPropertiesFields rest (dinsert acc f.name v) := by
  simp only [loadPropertiesFields]
  rw [hf, ok_bind]

theorem loadPropsFields_cons_none (f : ReaderField) (rest : List ReaderField)
    (acc : Dict PValue) (hf : processField f = .ok none) :
    loadPropertiesFields (f :: rest) acc = loadPropertiesFields rest acc := by
  simp only [loadPropertiesFields]
  rw [hf, ok_bind]

theorem loadPropsFields_cons_error (f : ReaderField) (rest : List ReaderField)
    (acc : Dict PValue) (e : LoadError) (hf : processField f = .error e) :
    loadPropertiesFields (f :: rest) acc = .error e := by
  simp only [loadPropertiesFields]
  rw [hf, error_bind]

theorem loadPropsFields_total (fields : List ReaderField) :
    ∀ acc : Dict PValue, (∀ f ∈ fields, ∃ v, processField f = .ok (some v)) →
      ∃ props, loadPropertiesFields fields acc = .ok props := by
  induction fields with
  | nil => exact fun acc _ => ⟨acc, rfl⟩
  | cons f rest ih =>
    intro acc hok
    obtain ⟨v, hv⟩ := hok f (by simp)
    rw [loadPropsFields_cons_some f rest acc v hv]
    exact ih _ fun g hg => hok g (by simp [hg])

theorem loadPropsFields_keys (fields : List ReaderField) :
    ∀ (acc : Dict PValue) (props : Dict PValue),
      (∀ f ∈ fields, ∃ v, processField f = .ok (some v)) →
      (fields.map ReaderField.name).Nodup →
      (∀ f ∈ fields, f.name ∉ dkeys acc) →
      loadPropertiesFields fields acc = .ok props →
      dkeys props = dkeys acc ++ fields.map ReaderField.name := by
  induction fields with
  | nil =>
    intro acc props _ _ _ h
    cases h
    simp
  | cons f rest ih =>
    intro acc props hok hnd hdisj h
    obtain ⟨v, hv⟩ := hok f (by simp)
    rw [loadPropsFields_cons_some f rest acc v hv] at h
    have hfresh : f.name ∉ dkeys acc := hdisj f (by simp)
    have hk : dkeys (dinsert acc f.name v) = dkeys acc ++ [f.name] :=
      dkeys_dinsert_not_mem acc f.name v hfresh
    have hnd' : (∀ x ∈ rest, ¬ x.name = f.name) ∧
        (rest.map ReaderField.name).Nodup := by simpa using hnd
    have hstep := ih (dinsert acc f.name v) props
      (fun g hg => hok g (by simp [hg]))
      hnd'.2
      (fun g hg => by
        rw [hk]
        simp only [List.mem_append, List.mem_singleton]
        push_neg
        exact ⟨hdisj g (by simp [hg]), hnd'.1 g hg⟩)
      h
    rw [hstep, hk]
    simp

theorem loadPropsFields_frozen (fields : List ReaderField) :
    ∀ (acc props : Dict PValue) (k : String),
      loadPropertiesFields fields acc = .ok props →
      k ∉ fields.map ReaderField.name →
      dget props k = dget acc k := by
  induction fields with
  | nil =>
    intro acc props k h _
    cases h
    rfl
  | cons f rest ih =>
    intro acc props k h hk
    have hk1 : k ≠ f.name := fun e => hk (by simp [e])
    have hk2 : k ∉ rest.map ReaderField.name := fun e => hk (by simp [e])
    cases hf : processField f with
    | error e =>
      rw [loadPropsFields_cons_error f rest acc e hf] at h
      cases h
    | ok r =>
      cases r with
      | none =>
        rw [loadPropsFields_cons_none f rest acc hf] at h
        exact ih acc props k h hk2
      | some v =>
        rw [loadPropsFields_cons_some f rest acc v hf] at h
        rw [ih _ props k h hk2]
        exact dget_dinsert_ne acc f.name k v hk1

theorem loadPropsFields_keys_subset (fields : List ReaderField) :
    ∀ (acc props : Dict PValue),
      loadPropertiesFields fields acc = .ok props →
      ∀ k ∈ dkeys props, k ∈ dkeys acc ∨ k ∈ fields.map ReaderField.name := by
  induction fields with
  | nil =>
    intro acc props h k hk
    cases h
    exact Or.inl hk
  | cons f rest ih =>
    intro acc props h k hk
    cases hf : processField f with
    | error e =>
      rw [loadPropsFields_cons_error f rest acc e hf] at h
      cases h
    | ok r =>
      cases r with
      | none =>
        rw [loadPropsFields_cons_none f rest acc hf] at h
        rcases ih acc props h k hk with h' | h'
        · exact Or.inl h'
        · exact Or.inr (by simp [h'])
      | some v =>
        rw [loadPropsFields_cons_some f rest acc v hf] at h
        rcases ih _ props h k hk with h' | h'
        · rw [dkeys_dinsert] at h'
          split at h'
          · exact Or.inl h'
          · rcases List.mem_append.mp h' with h'' | h''
            · exact Or.inl h''
            · exact Or.inr (by simp at h''; simp [h''])
        · exact Or.inr (by simp [h'])

theorem wrapTensors_cons_ok (t : ReaderTensor) (rest : List ReaderTensor)
    (acc : Dict InferenceTensor) (w : InferenceTensor)
    (hw : _wrap_tensor t.name t.shape t.tensor_type_name t.data = .ok w) :
    wrapTensors (t :: rest) acc = wrapTensors rest (dinsert acc t.name w) := by
  simp only [wrapTensors]
  rw [hw, ok_bind]

theorem wrapTensors_cons_error (t : ReaderTensor) (rest : List ReaderTensor)
    (acc : Dict InferenceTensor) (e : LoadError)
    (hw : _wrap_tensor t.name t.shape t.tensor_type_name t.data = .error e) :
    wrapTensors (t :: rest) acc = .error e := by
  simp only [wrapTensors]
  rw [hw, error_bind]

theorem wrapTensors_total (ts : List ReaderTensor) :
    ∀ acc : Dict InferenceTensor,
      (∀ u ∈ ts, ∃ w, _wrap_tensor u.name u.shape u.tensor_type_name u.data = .ok w) →
      ∃ d, wrapTensors ts acc = .ok d := by
  induction ts with
  | nil => exact fun acc _ => ⟨acc, rfl⟩
  | cons t rest ih =>
    intro acc hok
    obtain ⟨w, hw⟩ := hok t (by simp)
    rw [wrapTensors_cons_ok t rest acc w hw]
    exact ih _ fun u hu => hok u (by simp [hu])

theorem wrapTensors_all_ok (ts : List ReaderTensor) :
    ∀ (acc d : Dict InferenceTensor), wrapTensors ts acc = .ok d →
      ∀ u ∈ ts, ∃ w, _wrap_tensor u.name u.shape u.tensor_type_name u.data = .ok w := by
  induction ts with
  | nil => intro acc d _ u hu; cases hu
  | cons t rest ih =>
    intro acc d h u hu
    cases hw : _wrap_tensor t.name t.shape t.tensor_type_name t.data with
    | error e =>
      rw [wrapTensors_cons_error t rest acc e hw] at h
      cases h
    | ok w =>
      rw [wrapTensors_cons_ok t rest acc w hw] at h
      rcases List.mem_cons.mp hu with rfl | hu'
      · exact ⟨w, hw⟩
      · exact ih _ d h u hu'

theorem wrapTensors_keys (ts : List ReaderTensor) :
    ∀ (acc d : Dict InferenceTensor),
      (ts.map ReaderTensor.name).Nodup →
      (∀ u ∈ ts, u.name ∉ dkeys acc) →
      wrapTensors ts acc = .ok d →
      dkeys d = dkeys acc ++ ts.map ReaderTensor.name := by
  induction ts with
  | nil =>
    intro acc d _ _ h
    cases h
    simp
  | cons t rest ih =>
    intro acc d hnd hdisj h
    cases hw : _wrap_tensor t.name t.shape t.tensor_type_name t.data with
    | error e =>
      rw [wrapTensors_cons_error t rest acc e hw] at h
      cases h
    | ok w =>
      rw [wrapTensors_cons_ok t rest acc w hw] at h
      have hfresh : t.name ∉ dkeys acc := hdisj t (by simp)
      have hk : dkeys (dinsert acc t.name w) = dkeys acc ++ [t.name] :=
        dkeys_dinsert_not_mem acc t.name w hfresh
      have hnd' : (∀ x ∈ rest, ¬ x.name = t.name) ∧
          (rest.map ReaderTensor.name).Nodup := by simpa using hnd
      have hstep := ih (dinsert acc t.name w) d
        hnd'.2
        (fun u hu => by
          rw [hk]
          simp only [List.mem_append, List.mem_singleton]
          push_neg
          exact ⟨hdisj u (by simp [hu]), hnd'.1 u hu⟩)
        h
      rw [hstep, hk]
      simp

theorem wrapTensors_nodup (ts : List ReaderTensor) :
    ∀ (acc d : Dict InferenceTensor), (dkeys acc).Nodup →
      wrapTensors ts acc = .ok d → (dkeys d).Nodup := by
  induction ts with
  | nil =>
    intro acc d h heq
    cases heq
    exact h
  | cons t rest ih =>
    intro acc d h heq
    cases hw : _wrap_tensor t.name t.shape t.tensor_type_name t.data with
    | error e =>
      rw [wrapTensors_cons_error t rest acc e hw] at heq
      cases heq
    | ok w =>
      rw [wrapTensors_cons_ok t rest acc w hw] at heq
      exact ih _ d (nodup_dkeys_dinsert acc t.name w h) heq

theorem wrapTensors_keys_le (ts : List ReaderTensor) :
    ∀ (acc d : Dict InferenceTensor), wrapTensors ts acc = .ok d →
      (dkeys d).length ≤ (dkeys acc).length + ts.length := by
  induction ts with
  | nil =>
    intro acc d h
    cases h
    simp
  | cons t rest ih =>
    intro acc d h
    cases hw : _wrap_tensor t.name t.shape t.tensor_type_name t.data with
    | error e =>
      rw [wrapTensors_cons_error t rest acc e hw] at h
      cases h
    | ok w =>
      rw [wrapTensors_cons_ok t rest acc w hw] at h
      have h1 := ih _ d h
      have h2 : (dkeys (dinsert acc t.name w)).length ≤ (dkeys acc).length + 1 := by
        rw [dkeys_dinsert]
        split
        · omega
        · simp
      simp only [List.length_cons]
      omega

theorem wrapTensors_append (l1 l2 : List ReaderTensor) :
    ∀ (acc m : Dict InferenceTensor), wrapTensors l1 acc = .ok m →
      wrapTensors (l1 ++ l2) acc = wrapTensors l2 m := by
  induction l1 with
  | nil =>
    intro acc m h
    cases h
    rfl
  | cons t rest ih =>
    intro acc m h
    cases hw : _wrap_tensor t.name t.shape t.tensor_type_name t.data with
    | error e =>
      rw [wrapTensors_cons_error t rest acc e hw] at h
      cases h
    | ok w =>
      rw [wrapTensors_cons_ok t rest acc w hw] at h
      rw [List.cons_append, wrapTensors_cons_ok t (rest ++ l2) acc w hw]
      exact ih _ m h

theorem load_file_ok_inv (r : GGUFReader) (ds : Dataset) (h : load_file r = .ok ds) :
    ∃ p td, _load_properties r.fields = .ok p ∧ wrapTensors r.tensors [] = .ok td ∧
      ds = ⟨p, td⟩ := by
  unfold load_file at h
  cases hp : _load_properties r.fields with
  | error e =>
    rw [hp, error_bind] at h
    cases h
  | ok p =>
    rw [hp, ok_bind] at h
    cases ht : wrapTensors r.tensors [] with
    | error e =>
      rw [ht, error_bind] at h
      cases h
    | ok td =>
      rw [ht, ok_bind] at h
      cases h
      exact ⟨p, td, rfl, rfl, rfl⟩

theorem load_file_eq (r : GGUFReader) (p : Dict PValue) (td : Dict InferenceTensor)
    (hp : _load_properties r.fields = .ok p) (ht : wrapTensors r.tensors [] = .ok td) :
    load_file r = .ok ⟨p, td⟩ := by
  unfold load_file
  rw [hp, ok_bind, ht, ok_bind]
  rfl

theorem processField_skip (f : ReaderField) (t : GGUFValueType) (hf : f.types = [t])
    (hstr : t ≠ STRING) (hnum : gguf_scalar_to_np t = false) :
    processField f = .ok none := by
  unfold processField
  rw [hf]
  simp [hstr, hnum, pure, Except.pure]

theorem processField_array (f : ReaderField) (hf1 : f.types.length ≠ 1)
    (hf0 : f.types.get? 0 = some ARRAY) :
    processField f = (_load_array f >>= fun xs => pure (some (PValue.arr xs))) := by
  unfold processField
  rw [if_neg hf1, hf0]
  rfl

/-! ### Claims -/

/-- Claim C1, counterexample: a field with the single non-string,
non-numeric type tag ARRAY does not make extraction fail with an
"invalid field type" error naming the field — extraction succeeds and
the field is silently dropped. -/
theorem C1_counterexample :
    _load_properties [{ name := "x", types := [ARRAY], parts := [], data := [] }] =
      .ok [("schema", PValue.str "GGUF")] := rfl

/-- Claim C1, amended: a field with exactly one type tag denoting neither
a string nor a known numeric scalar type is silently skipped — it
contributes no property entry and raises no error (the
source's inner branch has no else; the "Invalid field type." error,
which does not name the field, is raised only for fields with more than
one type tag whose first tag is not ARRAY). -/
theorem C1_amended (f : ReaderField) (t : GGUFValueType) (rest : List ReaderField)
    (acc : Dict PValue) (hf : f.types = [t]) (hstr : t ≠ STRING)
    (hnum : gguf_scalar_to_np t = false) :
    processField f = .ok none ∧
      loadPropertiesFields (f :: rest) acc = loadPropertiesFields rest acc := by
  have h1 := processField_skip f t hf hstr hnum
  exact ⟨h1, loadPropsFields_cons_none f rest acc h1⟩

/-- Claim C1, witness for the amended theorem at a concrete field. -/
theorem C1_witness :
    processField { name := "w1", types := [ARRAY], parts := [], data := [] } = .ok none ∧
      loadPropertiesFields [{ name := "w1", types := [ARRAY], parts := [], data := [] }] [] =
        loadPropertiesFields [] [] :=
  C1_amended { name := "w1", types := [ARRAY], parts := [], data := [] } ARRAY [] []
    rfl (by decide) rfl

/-- Claim C2, counterexample: an array field with exactly one type tag
(the lone ARRAY container tag) does not fail with an "unsupported array
type" error — extraction succeeds and the field is silently dropped. -/
theorem C2_counterexample :
    _load_properties [{ name := "y", types := [ARRAY], parts := [], data := [] }] =
      .ok [("schema", PValue.str "GGUF")] := rfl

/-- Claim C2, amended: an array field (first type tag ARRAY) with more
than one type tag but not exactly two fails with the "Unsupported array
type" error identifying the tag list; an array field with exactly one
type tag is instead silently skipped. -/
theorem C2_amended (f g : ReaderField) (hf0 : f.types.get? 0 = some ARRAY)
    (hf1 : f.types.length ≠ 1) (hf2 : f.types.length ≠ 2)
    (hg : g.types = [ARRAY]) :
    processField f =
        .error (.valueError ("Unsupported array type " ++ typesName f.types)) ∧
      processField g = .ok none := by
  constructor
  · have hla : _load_array f =
        .error (.valueError ("Unsupported array type " ++ typesName f.types)) := by
      unfold _load_array
      rw [if_pos hf2]
    rw [processField_array f hf1 hf0, hla, error_bind]
  · exact processField_skip g ARRAY hg (by decide) rfl

/-- Claim C2, witness for the amended theorem: a three-tag array field
fails with the documented error and the one-tag array field is
skipped. -/
theorem C2_witness :
    processField { name := "z", types := [ARRAY, ARRAY, STRING], parts := [], data := [] } =
        .error (.valueError ("Unsupported array type " ++ typesName [ARRAY, ARRAY, STRING])) ∧
      processField { name := "g", types := [ARRAY], parts := [], data := [] } = .ok none :=
  C2_amended { name := "z", types := [ARRAY, ARRAY, STRING], parts := [], data := [] }
    { name := "g", types := [ARRAY], parts := [], data := [] }
    rfl (by decide) (by decide) rfl

/-- Claim C3, code-bug evidence: for a BF16 tensor the external-ownership
annotation is attached to the intermediate int16 tensor, and the leaf
actually stored in the namespace is the bfloat16 bit-level view — a new
tensor object whose annotation slot is empty (`trait = none`), although
the source's own comment requires the annotation to sit on the leaf. -/
theorem C3_bf16_leaf_unannotated :
    _wrap_tensor "t0" [2, 3] "BF16"
        { dtype := .uint8, shape := [12], data := [1, 2, 3, 4, 5, 6, 7, 8, 9, 10, 11, 12] } =
      .ok (.primitive "t0"
        { dtype := .bfloat16, shape := [3, 2],
          data := [513, 1027, 1541, 2055, 2569, 3083], trait := none }) := rfl

/-- Claim C4: every tensor the dispatcher successfully produces has
logical shape equal to the exact reversal of the declared on-disk shape,
regardless of declared encoding type and rank. -/
theorem C4_shape_reversal (n : String) (s : List Nat) (ty : String) (d : NpArray)
    (t : InferenceTensor) (h : _wrap_tensor n s ty d = .ok t) :
    t.logicalShape = s.reverse := by
  by_cases h1 : ty ∈ ["F16", "F32", "F64"]
  · rw [wrap_direct_eq n s ty d h1] at h
    split at h
    · cases h
      rfl
    · cases h
  · by_cases h2 : ty = "BF16"
    · subst h2
      obtain ⟨-, xs, -, -, rfl⟩ := wrap_bf16_ok n s d t h
      rfl
    · by_cases h3 : ty ∈ _quantized_types
      · rw [wrap_quantized_eq n s ty d h3] at h
        cases h
        rfl
      · rw [wrap_unknown_eq n s ty d h1 h2 h3] at h
        cases h

/-- Claim C4, witness at a rank-1 F32 tensor (reversal is a no-op). -/
theorem C4_witness :
    (InferenceTensor.primitive "w4"
        { dtype := .float32, shape := [5], data := [1, 2, 3, 4, 5],
          trait := some ("w4", "") }).logicalShape = [5].reverse :=
  C4_shape_reversal "w4" [5] "F32"
    { dtype := .float32, shape := [5], data := [1, 2, 3, 4, 5] } _ rfl

/-- Claim C5: for every tensor whose declared type is one of the five
quantized encodings, the raw tensor handed to the layout constructor is
unreshaped (same shape and same flat payload as the input raw view) and
the layout receives the reversed on-disk shape as its logical shape. -/
theorem C5_quantized_raw_unreshaped (n : String) (s : List Nat) (ty : String)
    (d : NpArray) (hty : ty ∈ _quantized_types) :
    ∃ raw : TorchTensor,
      _wrap_tensor n s ty d = .ok (.quantized ty n raw s.reverse) ∧
        raw.data = d.data ∧ raw.data.length = d.data.length ∧ raw.shape = d.shape :=
  ⟨_, wrap_quantized_eq n s ty d hty, rfl, rfl, rfl⟩

/-- Claim C5, witness at a concrete Q8_0 tensor. -/
theorem C5_witness :
    ∃ raw : TorchTensor,
      _wrap_tensor "w5" [8, 4] "Q8_0" { dtype := .uint8, shape := [3], data := [9, 8, 7] } =
          .ok (.quantized "Q8_0" "w5" raw [4, 8]) ∧
        raw.data = [9, 8, 7] ∧ raw.data.length = ([9, 8, 7] : List Int).length ∧
        raw.shape = [3] :=
  C5_quantized_raw_unreshaped "w5" [8, 4] "Q8_0"
    { dtype := .uint8, shape := [3], data := [9, 8, 7] } (by decide)

/-- Claim C6: a BF16 tensor materializes only when the raw storage dtype
is unsigned 8-bit (otherwise the assert fails); on success the raw bytes
are reinterpreted pairwise as signed 16-bit integers, reshaped to the
reversed logical shape, and bit-level viewed as bfloat16. -/
theorem C6_bf16_materialization (n : String) (s : List Nat) (d : NpArray) :
    (d.dtype ≠ NpDtype.uint8 → _wrap_tensor n s "BF16" d = .error .assertionError) ∧
      ∀ t, _wrap_tensor n s "BF16" d = .ok t →
        d.dtype = NpDtype.uint8 ∧
          ∃ xs, pairBytes d.data = some xs ∧ xs.length = s.reverse.prod ∧
            t = .primitive n
              { dtype := .bfloat16, shape := s.reverse, data := xs, trait := none } :=
  ⟨fun hd => wrap_bf16_assert n s d hd, fun t h => wrap_bf16_ok n s d t h⟩

/-- Claim C6, witness: a non-uint8 BF16 tensor hits the assertion, and a
12-byte uint8 BF16 tensor of on-disk shape [2,3] materializes with
logical shape [3,2] and bfloat16 payload. -/
theorem C6_witness :
    _wrap_tensor "w6" [2, 3] "BF16"
        { dtype := .float32, shape := [6], data := [0, 0, 0, 0, 0, 0] } =
          .error .assertionError ∧
      (NpDtype.uint8 = NpDtype.uint8 ∧
        ∃ xs, pairBytes ([1, 2, 3, 4, 5, 6, 7, 8, 9, 10, 11, 12] : List Int) = some xs ∧
          xs.length = ([2, 3] : List Nat).reverse.prod ∧
          InferenceTensor.primitive "w6"
              { dtype := .bfloat16, shape := [3, 2],
                data := [513, 1027, 1541, 2055, 2569, 3083], trait := none } =
            .primitive "w6"
              { dtype := .bfloat16, shape := ([2, 3] : List Nat).reverse, data := xs,
                trait := none }) :=
  ⟨(C6_bf16_materialization "w6" [2, 3]
      { dtype := .float32, shape := [6], data := [0, 0, 0, 0, 0, 0] }).1 (by decide),
   (C6_bf16_materialization "w6" [2, 3]
      { dtype := .uint8, shape := [12], data := [1, 2, 3, 4, 5, 6, 7, 8, 9, 10, 11, 12] }).2
     (.primitive "w6"
       { dtype := .bfloat16, shape := [3, 2],
         data := [513, 1027, 1541, 2055, 2569, 3083], trait := none }) rfl⟩

/-- Claim C7: a declared tensor type name outside the direct set
{F16, F32, F64, BF16} and outside the quantized-type table fails with
the "Unsupported gguf tensor type" error naming the type. -/
theorem C7_unknown_tensor_type (n : String) (s : List Nat) (ty : String) (d : NpArray)
    (h1 : ty ∉ ["F16", "F32", "F64", "BF16"]) (h2 : ty ∉ _quantized_types) :
    _wrap_tensor n s ty d =
      .error (.valueError ("Unsupported gguf tensor type: " ++ ty)) := by
  have h1a : ty ∉ ["F16", "F32", "F64"] := by
    intro hm
    apply h1
    simp only [List.mem_cons, List.not_mem_nil, or_false] at hm ⊢
    tauto
  have h1b : ty ≠ "BF16" := fun e => h1 (by simp [e])
  exact wrap_unknown_eq n s ty d h1a h1b h2

/-- Claim C7, witness at the declared type "UNKNOWN_X". -/
theorem C7_witness :
    _wrap_tensor "w7" [4] "UNKNOWN_X" { dtype := .uint8, shape := [4], data := [1, 2, 3, 4] } =
      .error (.valueError ("Unsupported gguf tensor type: " ++ "UNKNOWN_X")) :=
  C7_unknown_tensor_type "w7" [4] "UNKNOWN_X"
    { dtype := .uint8, shape := [4], data := [1, 2, 3, 4] } (by decide) (by decide)

/-- Claim C8, counterexample: a container whose single well-formed string
metadata field is named "schema" (M = 1, N = 0) loads to a property
mapping with 1 key, not M + 1 = 2: the field overwrites the schema
marker. -/
theorem C8_counterexample :
    load_file ⟨[⟨"schema", [STRING], [Part.strBytes "X"], []⟩], []⟩ =
        .ok ⟨[("schema", PValue.str "X")], []⟩ ∧
      (dkeys [("schema", PValue.str "X")]).length ≠ 1 + 1 :=
  ⟨rfl, by decide⟩

/-- Claim C8, amended: a full load of a container with N tensors of
distinct names and M contributing metadata fields none of which is named
"schema" yields a Dataset with exactly M + 1 property keys and exactly N
tensor keys; and whenever a full load returns a Dataset, every tensor of
the container reconstructed successfully (no partial dataset). -/
theorem C8_amended (fields : List ReaderField) (ts : List ReaderTensor)
    (hfn : (fields.map ReaderField.name).Nodup)
    (hschema : "schema" ∉ fields.map ReaderField.name)
    (hfok : ∀ f ∈ fields, ∃ v, processField f = .ok (some v))
    (htn : (ts.map ReaderTensor.name).Nodup)
    (htok : ∀ u ∈ ts, ∃ w, _wrap_tensor u.name u.shape u.tensor_type_name u.data = .ok w) :
    (∃ ds, load_file ⟨fields, ts⟩ = .ok ds ∧
        (dkeys ds.properties).length = fields.length + 1 ∧
        (dkeys ds.root_theta).length = ts.length) ∧
      ∀ (r : GGUFReader) (ds' : Dataset), load_file r = .ok ds' →
        ∀ u ∈ r.tensors, ∃ w, _wrap_tensor u.name u.shape u.tensor_type_name u.data = .ok w := by
  constructor
  · obtain ⟨props, hp⟩ := loadPropsFields_total fields [("schema", PValue.str "GGUF")] hfok
    obtain ⟨td, ht⟩ := wrapTensors_total ts [] htok
    refine ⟨⟨props, td⟩, load_file_eq ⟨fields, ts⟩ props td hp ht, ?_, ?_⟩
    · have hkeys := loadPropsFields_keys fields [("schema", PValue.str "GGUF")] props hfok hfn
        (fun f hf hmem => hschema (by
          have he : f.name = "schema" := by simpa [dkeys] using hmem
          exact he ▸ List.mem_map_of_mem ReaderField.name hf)) hp
      rw [hkeys]
      simp [dkeys]
    · have hkeys := wrapTensors_keys ts [] td htn (fun u _ hmem => by simp [dkeys] at hmem) ht
      rw [hkeys]
      simp [dkeys]
  · intro r ds' h u hu
    obtain ⟨p, td, hp, ht, rfl⟩ := load_file_ok_inv r ds' h
    exact wrapTensors_all_ok r.tensors [] td ht u hu

/-- Claim C8, witness at a container with one string field and one F32
tensor. -/
theorem C8_witness :
    (∃ ds, load_file ⟨[⟨"a", [STRING], [Part.strBytes "hello"], []⟩],
          [⟨"t", [2], "F32", ⟨.float32, [2], [7, 8]⟩⟩]⟩ = .ok ds ∧
        (dkeys ds.properties).length = 1 + 1 ∧
        (dkeys ds.root_theta).length = 1) ∧
      ∀ (r : GGUFReader) (ds' : Dataset), load_file r = .ok ds' →
        ∀ u ∈ r.tensors, ∃ w, _wrap_tensor u.name u.shape u.tensor_type_name u.data = .ok w :=
  C8_amended [⟨"a", [STRING], [Part.strBytes "hello"], []⟩]
    [⟨"t", [2], "F32", ⟨.float32, [2], [7, 8]⟩⟩]
    (by decide) (by decide)
    (by
      intro f hf
      rw [List.mem_singleton] at hf
      subst hf
      exact ⟨PValue.str "hello", rfl⟩)
    (by decide)
    (by
      intro u hu
      rw [List.mem_singleton] at hu
      subst hu
      exact ⟨_, rfl⟩)

/-- Claim C9, counterexample: on a container whose single metadata field
is itself named "schema", the properties-only load returns a mapping
whose "schema" entry is the field value, not the constant "GGUF". -/
theorem C9_counterexample :
    load_properties ⟨[⟨"schema", [STRING], [Part.strBytes "NOTGGUF"], []⟩],
        [⟨"t", [1], "F32", ⟨.float32, [1], [0]⟩⟩]⟩ =
      .ok [("schema", PValue.str "NOTGGUF")] := rfl

/-- Claim C9, amended: the properties-only load never inspects the tensor
descriptors (its result is invariant under replacing them), and — when no
metadata field is named "schema" — the returned mapping binds "schema" to
the constant "GGUF" and every key of the mapping is either "schema" or
the name of a metadata field (no tensor-keyed entries). -/
theorem C9_amended (fields : List ReaderField) (tensors tensors' : List ReaderTensor)
    (props : Dict PValue)
    (hs : "schema" ∉ fields.map ReaderField.name)
    (h : load_properties ⟨fields, tensors⟩ = .ok props) :
    load_properties ⟨fields, tensors⟩ = load_properties ⟨fields, tensors'⟩ ∧
      dget props "schema" = some (PValue.str "GGUF") ∧
      ∀ k ∈ dkeys props, k = "schema" ∨ k ∈ fields.map ReaderField.name := by
  refine ⟨rfl, ?_, ?_⟩
  · have hfr := loadPropsFields_frozen fields [("schema", PValue.str "GGUF")] props "schema" h hs
    rw [hfr]
    rfl
  · intro k hk
    rcases loadPropsFields_keys_subset fields [("schema", PValue.str "GGUF")] props h k hk with
      h' | h'
    · left
      simpa [dkeys] using h'
    · right
      exact h'

/-- Claim C9, witness at a container with one ordinary string field and
one tensor. -/
theorem C9_witness :
    load_properties ⟨[⟨"a", [STRING], [Part.strBytes "hello"], []⟩],
        [⟨"t", [1], "F32", ⟨.float32, [1], [0]⟩⟩]⟩ =
        load_properties ⟨[⟨"a", [STRING], [Part.strBytes "hello"], []⟩], []⟩ ∧
      dget [("schema", PValue.str "GGUF"), ("a", PValue.str "hello")] "schema" =
        some (PValue.str "GGUF") ∧
      ∀ k ∈ dkeys [("schema", PValue.str "GGUF"), ("a", PValue.str "hello")],
        k = "schema" ∨
          k ∈ [(⟨"a", [STRING], [Part.strBytes "hello"], []⟩ : ReaderField)].map
            ReaderField.name :=
  C9_amended [⟨"a", [STRING], [Part.strBytes "hello"], []⟩]
    [⟨"t", [1], "F32", ⟨.float32, [1], [0]⟩⟩] []
    [("schema", PValue.str "GGUF"), ("a", PValue.str "hello")]
    (by decide) rfl

/-- Claim C10: when the tensor list ends with a descriptor whose name may
duplicate an earlier one, a full load still succeeds (given every
individual reconstruction succeeds), the namespace binds that name to the
tensor built from the later descriptor (last write wins), and the key
list stays duplicate-free, so it can be shorter than the descriptor
list. -/
theorem C10_duplicate_last_wins (fields : List ReaderField) (props : Dict PValue)
    (ts : List ReaderTensor) (t : ReaderTensor) (w : InferenceTensor)
    (hp : _load_properties fields = .ok props)
    (hall : ∀ u ∈ ts, ∃ v, _wrap_tensor u.name u.shape u.tensor_type_name u.data = .ok v)
    (hw : _wrap_tensor t.name t.shape t.tensor_type_name t.data = .ok w) :
    ∃ ds, load_file ⟨fields, ts ++ [t]⟩ = .ok ds ∧
      dget ds.root_theta t.name = some w ∧
      (dkeys ds.root_theta).Nodup ∧
      (dkeys ds.root_theta).length ≤ ts.length + 1 := by
  obtain ⟨m, hm⟩ := wrapTensors_total ts [] hall
  have hsingle : wrapTensors [t] m = .ok (dinsert m t.name w) := by
    rw [wrapTensors_cons_ok t [] m w hw]
    rfl
  have htd : wrapTensors (ts ++ [t]) [] = .ok (dinsert m t.name w) := by
    rw [wrapTensors_append ts [t] [] m hm, hsingle]
  refine ⟨⟨props, dinsert m t.name w⟩, load_file_eq _ props _ hp htd, ?_, ?_, ?_⟩
  · exact dget_dinsert_self m t.name w
  · exact wrapTensors_nodup (ts ++ [t]) [] _ (by simp [dkeys]) htd
  · have hle := wrapTensors_keys_le (ts ++ [t]) [] _ htd
    simpa [dkeys] using hle

/-- Claim C10, witness: two F32 descriptors both named "dup"; the load
succeeds and the namespace holds the second tensor under "dup". -/
theorem C10_witness :
    ∃ ds, load_file ⟨[],
        [⟨"dup", [2], "F32", ⟨.float32, [2], [1, 2]⟩⟩] ++
          [⟨"dup", [3], "F32", ⟨.float32, [3], [4, 5, 6]⟩⟩]⟩ = .ok ds ∧
      dget ds.root_theta "dup" =
        some (.primitive "dup" ⟨.float32, [3], [4, 5, 6], some ("dup", "")⟩) ∧
      (dkeys ds.root_theta).Nodup ∧
      (dkeys ds.root_theta).length ≤ 1 + 1 :=
  C10_duplicate_last_wins [] [("schema", PValue.str "GGUF")]
    [⟨"dup", [2], "F32", ⟨.float32, [2], [1, 2]⟩⟩]
    ⟨"dup", [3], "F32", ⟨.float32, [3], [4, 5, 6]⟩⟩
    (.primitive "dup" ⟨.float32, [3], [4, 5, 6], some ("dup", "")⟩)
    rfl
    (by
      intro u hu
      rw [List.mem_singleton] at hu
      subst hu
      exact ⟨_, rfl⟩)
    rfl

end GGUF
